import Mathlib

/-!
A shallow embedding of the `secretstream` streaming AEAD wrapper from
`src/crypto/secretstream/secretstream_macros.rs` (the body of the
`stream_module!` macro), together with a model, taken from the design
specification, of the libsodium secretstream primitive that the Rust code
calls through FFI (`$init_push_name`, `$push_name`, `$init_pull_name`,
`$pull_name`, `$rekey_name`): the primitive itself is not part of the
repository sources.

Bytes are modelled as `Nat`, byte slices as `List Nat`.  Rust `Result<T, ()>`
is modelled by a three-valued result type that additionally distinguishes a
Rust panic/abort (needed because `Decryptor::decrypt` computes
`c.len() - ABYTES` on `usize` with no underflow guard).
-/

namespace Secretstream

/-- A key is a byte sequence (`Key` newtype over `[u8; KEYBYTES]`). -/
abbrev Key := List Nat

/-- A header is a byte sequence (`Header` newtype over `[u8; HEADERBYTES]`). -/
abbrev Header := List Nat

/-- Number of bytes in a `Key` (macro parameter `$keybytes`, instantiated by
libsodium with 32). -/
def KEYBYTES : Nat := 32

/-- Number of bytes in a `Header` (macro parameter `$headerbytes`, instantiated
by libsodium with 24). -/
def HEADERBYTES : Nat := 24

/-- Modelled from the spec: number of bytes of the authentication trailer of a
chunk.  The wire ciphertext consists of one encrypted tag byte, the encrypted
body, and this trailer, so `ABYTES = 1 + MACBYTES`. -/
def MACBYTES : Nat := 16

/-- Number of added bytes: the ciphertext length is guaranteed to always be
message length + ABYTES (macro parameter `$abytes`, instantiated by libsodium
with 17 = 1 tag byte + 16 MAC bytes). -/
def ABYTES : Nat := 17

/-- Tag message (macro parameter `$tag_message`, instantiated with 0). -/
def TAG_MESSAGE : Nat := 0

/-- Tag push (macro parameter `$tag_push`, instantiated with 1). -/
def TAG_PUSH : Nat := 1

/-- Tag rekey (macro parameter `$tag_rekey`, instantiated with 2). -/
def TAG_REKEY : Nat := 2

/-- Tag final (macro parameter `$tag_final`, instantiated with 3). -/
def TAG_FINAL : Nat := 3

/-- Tag of the message (`enum Tag` in the source): a closed enumeration with
four variants. -/
inductive Tag : Type where
  | Message : Tag
  | Push : Tag
  | Rekey : Tag
  | Final : Tag
deriving DecidableEq

/-- `fn _tag_from_byte(tag: u8) -> Result<Tag, ()>`: fallible decode of the
raw tag byte, matching the four known constants in source order and failing
on anything else. -/
def _tag_from_byte (tag : Nat) : Except Unit Tag :=
  if tag = TAG_MESSAGE then Except.ok Tag.Message
  else if tag = TAG_PUSH then Except.ok Tag.Push
  else if tag = TAG_REKEY then Except.ok Tag.Rekey
  else if tag = TAG_FINAL then Except.ok Tag.Final
  else Except.error ()

/-- The byte constant that the encryption side attaches for each tag variant
(`message`/`push`/`rekey_message`/`finalize` pass `TAG_MESSAGE`/`TAG_PUSH`/
`TAG_REKEY`/`TAG_FINAL` to `_push`). -/
def tagByteOf : Tag → Nat
  | Tag.Message => TAG_MESSAGE
  | Tag.Push => TAG_PUSH
  | Tag.Rekey => TAG_REKEY
  | Tag.Final => TAG_FINAL

/-- Result of a Rust call: `Ok`, `Err(())`, or a panic/abort (Rust arithmetic
underflow in debug builds, or the capacity-overflow abort of
`Vec::with_capacity` after the wrapping subtraction in release builds). -/
inductive RResult (α : Type) : Type where
  | ok : α → RResult α
  | err : RResult α
  | panicked : RResult α
deriving DecidableEq

/-- Modelled from the spec: the opaque Stream State of the primitive
(`$state_name`).  Per the spec it conceptually holds a derived working key, a
position counter/nonce component, and a rekey-epoch marker. -/
structure StreamState : Type where
  k : Nat
  counter : Nat
  epoch : Nat
deriving DecidableEq

/-- An injective encoding of byte lists into `Nat`, used to build the
idealised (assumed collision-resistant) authentication values of the modelled
AEAD primitive. -/
def encodeList : List Nat → Nat
  | [] => 0
  | b :: t => Nat.pair b (encodeList t) + 1

/-- Modelled from the spec: the per-chunk key/nonce material derived from the
Stream State (it differs for every chunk because the counter component
changes at every chunk step). -/
def ks (s : StreamState) (i : Nat) : Nat :=
  Nat.pair s.k (Nat.pair s.counter (Nat.pair s.epoch i))

/-- The keystream byte at position `i` of the current chunk. -/
def ksb (s : StreamState) (i : Nat) : Nat :=
  ks s i % 256

/-- Encrypt the body bytes with the per-chunk keystream, starting at keystream
position `i`. -/
def encBytes (s : StreamState) : Nat → List Nat → List Nat
  | _, [] => []
  | i, b :: t => (b + ksb s i) % 256 :: encBytes s (i + 1) t

/-- Decrypt the body bytes with the per-chunk keystream, starting at keystream
position `i`. -/
def decBytes (s : StreamState) : Nat → List Nat → List Nat
  | _, [] => []
  | i, b :: t => (b + 256 - ksb s i) % 256 :: decBytes s (i + 1) t

/-- Modelled from the spec: the idealised authentication trailer of a chunk.
It is a function of the per-chunk key/nonce material, the associated data
with the tag byte bound into it, and the plaintext; the primitive is assumed
collision-resistant, so the model makes it injective outright. -/
def macBytes (s : StreamState) (ad : List Nat) (tagB : Nat) (m : List Nat) :
    List Nat :=
  Nat.pair (ks s 0) (Nat.pair tagB (Nat.pair (encodeList ad) (encodeList m)))
    :: List.replicate (MACBYTES - 1) 0

/-- Modelled from the spec: the wire form of one chunk at state `s`: the
encrypted tag byte, the encrypted body, and the authentication trailer, of
total length `len(m) + ABYTES`. -/
def encChunk (s : StreamState) (ad : List Nat) (tagB : Nat) (m : List Nat) :
    List Nat :=
  (tagB + ksb s 0) % 256 :: (encBytes s 1 m ++ macBytes s ad tagB m)

/-- Modelled from the spec: advancing the Stream State by one chunk step (the
state evolves by a one-way function after every chunk; the position counter
moves). -/
def chunkStep (s : StreamState) : StreamState :=
  { k := s.k, counter := s.counter + 1, epoch := s.epoch }

/-- Modelled from the spec: the rekey transition `rekey(State) -> State'`, a
one-way transformation deriving a fresh working key and starting a new
epoch (`$rekey_name`). -/
def rekeyFn (s : StreamState) : StreamState :=
  { k := Nat.pair s.k (Nat.pair s.counter s.epoch) + 1,
    counter := 0,
    epoch := s.epoch + 1 }

/-- Modelled from the spec: the state after processing one chunk carrying raw
tag byte `tagB`: one chunk step, and additionally the rekey transition when
the tag is the Rekey tag. -/
def postState (s : StreamState) (tagB : Nat) : StreamState :=
  if tagB = TAG_REKEY then rekeyFn (chunkStep s) else chunkStep s

/-- Modelled from the spec: the deterministic derivation of the initial
Stream State from `(Key, Header)`; both sides compute the identical state
from the same inputs (`$init_push_name` / `$init_pull_name`). -/
def initState (key : Key) (header : Header) : StreamState :=
  { k := Nat.pair (encodeList key) (encodeList header),
    counter := 0,
    epoch := 0 }

/-- Modelled from the spec: the primitive push (`$push_name`): produce the
chunk for `(tag byte, ad, m)` at state `s` and advance the state.  It always
succeeds for well-formed inputs. -/
def secretstream_push (s : StreamState) (m : List Nat) (ad : List Nat)
    (tagB : Nat) : List Nat × StreamState :=
  (encChunk s ad tagB m, postState s tagB)

/-- Modelled from the spec: the primitive pull (`$pull_name`): reject a
ciphertext shorter than `ABYTES`, otherwise split it into encrypted tag byte,
encrypted body and trailer, decrypt, verify the trailer, and on success
return the plaintext, the raw tag byte, and the advanced state.  On failure
the state is unchanged (the wrapper keeps its previous state). -/
def secretstream_pull (s : StreamState) (c : List Nat) (ad : List Nat) :
    Except Unit (List Nat × Nat × StreamState) :=
  if c.length < ABYTES then Except.error ()
  else
    let e0 := c.headD 0
    let rest := c.tail
    let mlen := c.length - ABYTES
    let body := rest.take mlen
    let macd := rest.drop mlen
    let tagB := (e0 + 256 - ksb s 0) % 256
    let m := decBytes s 1 body
    if macd = macBytes s ad tagB m then
      Except.ok (m, tagB, postState s tagB)
    else Except.error ()

/-- The byte sequence the primitive reads for the associated data:
`ad.map(|ad| (ad.as_ptr(), ad.len())).unwrap_or((null, 0))` makes the
primitive read `ad.len()` bytes when `ad` is `Some` and zero bytes when it is
`None`. -/
def adSlice : Option (List Nat) → List Nat
  | none => []
  | some l => l

/-- `pub struct Encryptor($state_name)`: the encryption side owns a Stream
State. -/
structure Encryptor : Type where
  state : StreamState
deriving DecidableEq

/-- `Encryptor::init(key) -> Result<(Encryptor, Header), ()>`: generates a
fresh random header and derives the initial state.  The randomness of the
header is passed as an explicit argument; the primitive initialisation always
succeeds for well-formed keys. -/
def Encryptor.init (key : Key) (header : Header) : Encryptor × Header :=
  ({ state := initState key header }, header)

/-- `Encryptor::_push(m, ad, tag)`: delegate to the primitive push and store
the advanced state; the `err != 0` early return never fires in the model
because the modelled primitive always succeeds. -/
def Encryptor._push (e : Encryptor) (m : List Nat) (ad : Option (List Nat))
    (tag : Nat) : RResult (List Nat) × Encryptor :=
  let r := secretstream_push e.state m (adSlice ad) tag
  (RResult.ok r.1, { state := r.2 })

/-- `Encryptor::message(m, ad)`: encrypt tagged as `Message`. -/
def Encryptor.message (e : Encryptor) (m : List Nat)
    (ad : Option (List Nat)) : RResult (List Nat) × Encryptor :=
  Encryptor._push e m ad TAG_MESSAGE

/-- `Encryptor::push(m, ad)`: encrypt tagged as `Push`. -/
def Encryptor.push (e : Encryptor) (m : List Nat)
    (ad : Option (List Nat)) : RResult (List Nat) × Encryptor :=
  Encryptor._push e m ad TAG_PUSH

/-- `Encryptor::rekey_message(m, ad)`: encrypt tagged as `Rekey`. -/
def Encryptor.rekey_message (e : Encryptor) (m : List Nat)
    (ad : Option (List Nat)) : RResult (List Nat) × Encryptor :=
  Encryptor._push e m ad TAG_REKEY

/-- `Encryptor::finalize(mut self, m, ad) -> Result<Vec<u8>, ()>`: encrypt
tagged as `Final`.  The Rust signature takes `self` by value, consuming the
instance; accordingly the model returns only the ciphertext result and no
successor `Encryptor`. -/
def Encryptor.finalize (e : Encryptor) (m : List Nat)
    (ad : Option (List Nat)) : RResult (List Nat) :=
  (Encryptor._push e m ad TAG_FINAL).1

/-- `Encryptor::rekey()`: explicit rekeying of the encryption state. -/
def Encryptor.rekey (e : Encryptor) : Encryptor :=
  { state := rekeyFn e.state }

/-- `pub struct Decryptor { state, flag_finalized }`. -/
structure Decryptor : Type where
  state : StreamState
  flag_finalized : Bool
deriving DecidableEq

/-- `Decryptor::init(header, key) -> Result<Decryptor, ()>`: derives the
initial state from the received header and the key; the failure path is
defensive only (fixed-size headers are always structurally valid), so the
model is total. -/
def Decryptor.init (header : Header) (key : Key) : Decryptor :=
  { state := initState key header, flag_finalized := false }

/-- `Decryptor::decrypt(c, ad) -> Result<(Vec<u8>, Tag), ()>`.  The source
first computes `Vec::with_capacity(c.len() - ABYTES)`: when
`c.len() < ABYTES` the `usize` subtraction has no guard and the call panics
(debug: subtraction overflow; release: wrapped capacity aborts), modelled by
`RResult.panicked`.  Otherwise the primitive pull runs (mutating the state on
success), the raw tag byte is decoded by `_tag_from_byte` (with `?`
propagation of the decode error), and a decoded `Final` tag sets
`flag_finalized`. -/
def Decryptor.decrypt (d : Decryptor) (c : List Nat)
    (ad : Option (List Nat)) : RResult (List Nat × Tag) × Decryptor :=
  if c.length < ABYTES then (RResult.panicked, d)
  else
    match secretstream_pull d.state c (adSlice ad) with
    | Except.error _ => (RResult.err, d)
    | Except.ok (m, tagB, s) =>
      match _tag_from_byte tagB with
      | Except.error _ => (RResult.err, { state := s, flag_finalized := d.flag_finalized })
      | Except.ok tag =>
        (RResult.ok (m, tag),
         { state := s,
           flag_finalized := if tag = Tag.Final then true else d.flag_finalized })

/-- `Decryptor::rekey()`: explicit rekeying of the decryption state; the
finalized flag is untouched. -/
def Decryptor.rekey (d : Decryptor) : Decryptor :=
  { state := rekeyFn d.state, flag_finalized := d.flag_finalized }

/-- `Decryptor::is_finalized()`. -/
def Decryptor.is_finalized (d : Decryptor) : Bool :=
  d.flag_finalized




theorem encBytes_length (s : StreamState) :
    ∀ (i : Nat) (m : List Nat), (encBytes s i m).length = m.length := by
  intro i m
  induction m generalizing i with
  | nil => rfl
  | cons b t ih => simp [encBytes, ih]

theorem macBytes_length (s : StreamState) (ad : List Nat) (tagB : Nat)
    (m : List Nat) : (macBytes s ad tagB m).length = MACBYTES := by
  simp [macBytes, MACBYTES]

theorem encChunk_length (s : StreamState) (ad : List Nat) (tagB : Nat)
    (m : List Nat) : (encChunk s ad tagB m).length = m.length + ABYTES := by
  simp only [encChunk, List.length_cons, List.length_append,
    encBytes_length, macBytes_length, MACBYTES, ABYTES]

theorem ksb_lt (s : StreamState) (i : Nat) : ksb s i < 256 := by
  exact Nat.mod_lt _ (by norm_num)

theorem decBytes_encBytes (s : StreamState) :
    ∀ (i : Nat) (m : List Nat), (∀ b ∈ m, b < 256) →
      decBytes s i (encBytes s i m) = m := by
  intro i m
  induction m generalizing i with
  | nil => intro _; rfl
  | cons b t ih =>
    intro h
    have hb : b < 256 := h b (by simp)
    have hk : ksb s i < 256 := ksb_lt s i
    simp only [encBytes, decBytes, List.cons.injEq]
    refine ⟨by omega, ih (i + 1) (fun x hx => h x (by simp [hx]))⟩

theorem pull_encChunk (s : StreamState) (ad : List Nat) (tagB : Nat)
    (m : List Nat) (htag : tagB < 256) (hm : ∀ b ∈ m, b < 256) :
    secretstream_pull s (encChunk s ad tagB m) ad
      = Except.ok (m, tagB, postState s tagB) := by
  have hk : ksb s 0 < 256 := ksb_lt s 0
  have hlen : (encChunk s ad tagB m).length = m.length + ABYTES :=
    encChunk_length s ad tagB m
  have hnot : ¬ (encChunk s ad tagB m).length < ABYTES := by omega
  have hbody : (encBytes s 1 m).length = m.length := encBytes_length s 1 m
  have hhead : (encChunk s ad tagB m).headD 0 = (tagB + ksb s 0) % 256 := rfl
  have htail : (encChunk s ad tagB m).tail
      = encBytes s 1 m ++ macBytes s ad tagB m := rfl
  have hmlen : (encChunk s ad tagB m).length - ABYTES
      = (encBytes s 1 m).length := by omega
  have htagdec : ((tagB + ksb s 0) % 256 + 256 - ksb s 0) % 256 = tagB := by
    omega
  rw [secretstream_pull, if_neg hnot]
  simp only [hhead, htail, hmlen, List.take_left, List.drop_left, htagdec,
    decBytes_encBytes s 1 m hm]
  simp



theorem tagByteOf_lt (t : Tag) : tagByteOf t < 256 := by
  cases t <;> decide

theorem tag_from_byte_tagByteOf (t : Tag) :
    _tag_from_byte (tagByteOf t) = Except.ok t := by
  cases t <;> rfl

theorem decrypt_encChunk (s : StreamState) (f : Bool) (m : List Nat)
    (adO : Option (List Nat)) (t : Tag) (hm : ∀ b ∈ m, b < 256) :
    Decryptor.decrypt { state := s, flag_finalized := f }
        (encChunk s (adSlice adO) (tagByteOf t) m) adO
      = (RResult.ok (m, t),
         { state := postState s (tagByteOf t),
           flag_finalized := if t = Tag.Final then true else f }) := by
  have hlen := encChunk_length s (adSlice adO) (tagByteOf t) m
  have hnot : ¬ (encChunk s (adSlice adO) (tagByteOf t) m).length < ABYTES := by
    omega
  rw [Decryptor.decrypt, if_neg hnot]
  simp only [pull_encChunk s (adSlice adO) (tagByteOf t) m (tagByteOf_lt t) hm,
    tag_from_byte_tagByteOf]


/-- Encrypting a sequence of (tag, ad, plaintext) triples in order: each of
the four tag forms (`message`, `push`, `rekey_message`, `finalize`) delegates
to `_push` with the corresponding tag byte, so one step encrypts via `_push`
at `tagByteOf`.  An `Err` from `_push` stops the sequence (it never occurs in
the model). -/
def encryptSeq (e : Encryptor) :
    List (Tag × Option (List Nat) × List Nat) → List (List Nat) × Encryptor
  | [] => ([], e)
  | (t, ad, m) :: rest =>
    match Encryptor._push e m ad (tagByteOf t) with
    | (RResult.ok c, e2) =>
      let r := encryptSeq e2 rest
      (c :: r.1, r.2)
    | (RResult.err, e2) => ([], e2)
    | (RResult.panicked, e2) => ([], e2)

/-- Decrypting a sequence of (ciphertext, ad) pairs in order, collecting the
(plaintext, tag) results; the first failure stops the sequence and is
reported. -/
def decryptSeq (d : Decryptor) :
    List (List Nat × Option (List Nat)) →
      RResult (List (List Nat × Tag)) × Decryptor
  | [] => (RResult.ok [], d)
  | (c, ad) :: rest =>
    match Decryptor.decrypt d c ad with
    | (RResult.ok p, d2) =>
      let r := decryptSeq d2 rest
      (match r.1 with
        | RResult.ok ps => RResult.ok (p :: ps)
        | RResult.err => RResult.err
        | RResult.panicked => RResult.panicked,
       r.2)
    | (RResult.err, d2) => (RResult.err, d2)
    | (RResult.panicked, d2) => (RResult.panicked, d2)

theorem roundtrip_aux :
    ∀ (seq : List (Tag × Option (List Nat) × List Nat)) (s : StreamState)
      (f : Bool), (∀ tr ∈ seq, ∀ b ∈ tr.2.2, b < 256) →
      (decryptSeq { state := s, flag_finalized := f }
          ((encryptSeq { state := s } seq).1.zip
            (seq.map fun tr => tr.2.1))).1
        = RResult.ok (seq.map fun tr => (tr.2.2, tr.1)) := by
  intro seq
  induction seq with
  | nil => intro s f _; rfl
  | cons tr rest ih =>
    obtain ⟨t, ad, m⟩ := tr
    intro s f h
    have hm : ∀ b ∈ m, b < 256 := h (t, ad, m) (by simp)
    have hrest : ∀ tr ∈ rest, ∀ b ∈ tr.2.2, b < 256 :=
      fun tr htr => h tr (by simp [htr])
    simp only [encryptSeq, Encryptor._push, secretstream_push, List.map_cons,
      List.zip_cons_cons, decryptSeq]
    rw [decrypt_encChunk s f m ad t hm]
    have ih2 := ih (postState s (tagByteOf t))
      (if t = Tag.Final then true else f) hrest
    simp only [List.zip] at ih2
    simp only []
    rw [ih2]

/-- Claim C1: for every key, every header produced at `Encryptor::init`, and
every finite sequence of (tag, ad, plaintext) triples drawn from the four
tags, encrypting the sequence in order and then decrypting the resulting
ciphertexts in the same order with a `Decryptor` initialised from the same
header and key returns exactly the original (plaintext, tag) pairs.  The
plaintexts range over byte sequences (each byte below 256). -/
theorem c1_stream_roundtrip (key : Key) (header : Header)
    (seq : List (Tag × Option (List Nat) × List Nat))
    (h : ∀ tr ∈ seq, ∀ b ∈ tr.2.2, b < 256) :
    (decryptSeq (Decryptor.init header key)
        ((encryptSeq (Encryptor.init key header).1 seq).1.zip
          (seq.map fun tr => tr.2.1))).1
      = RResult.ok (seq.map fun tr => (tr.2.2, tr.1)) :=
  roundtrip_aux seq (initState key header) false h

/-- Witness for C1 at a concrete key, header and two-chunk sequence. -/
theorem c1_stream_roundtrip_witness :
    (∀ tr ∈ [(Tag.Message, some [9], [104, 105]), (Tag.Final, none, [33])],
      ∀ b ∈ tr.2.2, b < 256) ∧
    (decryptSeq (Decryptor.init [3] [2])
        ((encryptSeq (Encryptor.init [2] [3]).1
            [(Tag.Message, some [9], [104, 105]), (Tag.Final, none, [33])]).1.zip
          (([(Tag.Message, some [9], [104, 105]),
             (Tag.Final, none, [33])]).map fun tr => tr.2.1))).1
      = RResult.ok [([104, 105], Tag.Message), ([33], Tag.Final)] :=
  ⟨by decide, c1_stream_roundtrip [2] [3]
    [(Tag.Message, some [9], [104, 105]), (Tag.Final, none, [33])] (by decide)⟩


/-- Claim C2 (against the code): the source of `Decryptor::decrypt` computes
`Vec::with_capacity(c.len() - ABYTES)` before anything else; for a ciphertext
shorter than `ABYTES` the unguarded `usize` subtraction panics (debug) or
wraps so that `with_capacity` aborts (release).  The call therefore never
returns the underflow/decode `Err` required by the claim: evaluated at the
failing input `c = []`, the result is a panic and not `Err`. -/
theorem c2_short_ciphertext_panics (d : Decryptor) (ad : Option (List Nat)) :
    (Decryptor.decrypt d [] ad).1 = RResult.panicked ∧
    (Decryptor.decrypt d [] ad).1 ≠ (RResult.err : RResult (List Nat × Tag)) := by
  refine ⟨rfl, ?_⟩
  intro h
  rw [show (Decryptor.decrypt d [] ad).1 = RResult.panicked from rfl] at h
  exact RResult.noConfusion h

/-- Claim C3: a successful encryption through any of the four tag forms
returns a ciphertext of length exactly `len(m) + ABYTES`. -/
theorem c3_ciphertext_length (e : Encryptor) (m : List Nat)
    (ad : Option (List Nat)) :
    (∀ c, (Encryptor.message e m ad).1 = RResult.ok c →
      c.length = m.length + ABYTES) ∧
    (∀ c, (Encryptor.push e m ad).1 = RResult.ok c →
      c.length = m.length + ABYTES) ∧
    (∀ c, (Encryptor.rekey_message e m ad).1 = RResult.ok c →
      c.length = m.length + ABYTES) ∧
    (∀ c, Encryptor.finalize e m ad = RResult.ok c →
      c.length = m.length + ABYTES) := by
  refine ⟨?_, ?_, ?_, ?_⟩
  · intro c h
    have h2 : RResult.ok (encChunk e.state (adSlice ad) TAG_MESSAGE m)
        = RResult.ok c := h
    cases h2
    exact encChunk_length e.state (adSlice ad) TAG_MESSAGE m
  · intro c h
    have h2 : RResult.ok (encChunk e.state (adSlice ad) TAG_PUSH m)
        = RResult.ok c := h
    cases h2
    exact encChunk_length e.state (adSlice ad) TAG_PUSH m
  · intro c h
    have h2 : RResult.ok (encChunk e.state (adSlice ad) TAG_REKEY m)
        = RResult.ok c := h
    cases h2
    exact encChunk_length e.state (adSlice ad) TAG_REKEY m
  · intro c h
    have h2 : RResult.ok (encChunk e.state (adSlice ad) TAG_FINAL m)
        = RResult.ok c := h
    cases h2
    exact encChunk_length e.state (adSlice ad) TAG_FINAL m

/-- Witness for C3: a concrete two-byte message under the `Message` form. -/
theorem c3_ciphertext_length_witness :
    (Encryptor.message { state := initState [2] [3] } [10, 20] none).1
      = RResult.ok (encChunk (initState [2] [3]) (adSlice none)
          TAG_MESSAGE [10, 20]) ∧
    (encChunk (initState [2] [3]) (adSlice none) TAG_MESSAGE [10, 20]).length
      = ([10, 20] : List Nat).length + ABYTES :=
  ⟨rfl, (c3_ciphertext_length { state := initState [2] [3] } [10, 20] none).1
    (encChunk (initState [2] [3]) (adSlice none) TAG_MESSAGE [10, 20]) rfl⟩

/-- Claim C4: tag decoding is total and closed: each of the four known tag
byte constants decodes to exactly its `Tag` variant (round-tripping the
encoded value), every other byte makes `_tag_from_byte` fail with the decode
error, and a chunk carrying such a byte makes `Decryptor::decrypt` return
`Err` rather than silently defaulting to `Tag::Message`. -/
theorem c4_tag_decoding_closed :
    (∀ t : Tag, _tag_from_byte (tagByteOf t) = Except.ok t) ∧
    (∀ b : Nat, b ≠ TAG_MESSAGE → b ≠ TAG_PUSH → b ≠ TAG_REKEY →
      b ≠ TAG_FINAL →
      _tag_from_byte b = Except.error () ∧
      ∀ (s : StreamState) (f : Bool) (adO : Option (List Nat)) (m : List Nat),
        b < 256 → (∀ x ∈ m, x < 256) →
        (Decryptor.decrypt { state := s, flag_finalized := f }
            (encChunk s (adSlice adO) b m) adO).1 = RResult.err) := by
  constructor
  · intro t
    cases t <;> rfl
  · intro b h0 h1 h2 h3
    have htag : _tag_from_byte b = Except.error () := by
      simp [_tag_from_byte, h0, h1, h2, h3]
    refine ⟨htag, ?_⟩
    intro s f adO m hb hm
    have hlen := encChunk_length s (adSlice adO) b m
    have hnot : ¬ (encChunk s (adSlice adO) b m).length < ABYTES := by omega
    rw [Decryptor.decrypt, if_neg hnot]
    simp only [pull_encChunk s (adSlice adO) b m hb hm, htag]

/-- Witness for C4 at the unknown tag byte 7. -/
theorem c4_tag_decoding_closed_witness :
    _tag_from_byte 7 = Except.error () ∧
    (Decryptor.decrypt { state := initState [2] [3], flag_finalized := false }
        (encChunk (initState [2] [3]) (adSlice none) 7 [5]) none).1
      = RResult.err :=
  ⟨(c4_tag_decoding_closed.2 7 (by decide) (by decide) (by decide)
      (by decide)).1,
   (c4_tag_decoding_closed.2 7 (by decide) (by decide) (by decide)
      (by decide)).2 (initState [2] [3]) false none [5] (by decide)
      (by decide)⟩


/-- Claim C5: after a `Decryptor` successfully decodes a chunk carrying the
`Final` tag, `is_finalized()` returns true; and `Encryptor::finalize` (the
Final-tag form) consumes its instance — in the embedding its type returns
only the ciphertext result, with no successor `Encryptor`, and it is exactly
`_push` at `TAG_FINAL` with the successor state discarded. -/
theorem c5_finalize (d : Decryptor) (c : List Nat) (ad : Option (List Nat))
    (m : List Nat) (d2 : Decryptor)
    (h : Decryptor.decrypt d c ad = (RResult.ok (m, Tag.Final), d2)) :
    d2.is_finalized = true ∧
    ∀ (e : Encryptor) (m2 : List Nat) (ad2 : Option (List Nat)),
      Encryptor.finalize e m2 ad2 = (Encryptor._push e m2 ad2 TAG_FINAL).1 := by
  refine ⟨?_, fun e m2 ad2 => rfl⟩
  rw [Decryptor.decrypt] at h
  split at h
  · simp at h
  · split at h
    · simp at h
    · split at h
      · simp at h
      · rename_i tag heq
        simp only [Prod.mk.injEq, RResult.ok.injEq] at h
        obtain ⟨⟨hm, ht⟩, hd⟩ := h
        subst ht
        rw [← hd]
        simp [Decryptor.is_finalized]

/-- Witness for C5: decrypting a concrete `finalize`-produced chunk. -/
theorem c5_finalize_witness :
    Decryptor.decrypt { state := initState [2] [3], flag_finalized := false }
        (encChunk (initState [2] [3]) (adSlice none) TAG_FINAL [7]) none
      = (RResult.ok ([7], Tag.Final),
         (Decryptor.decrypt
            { state := initState [2] [3], flag_finalized := false }
            (encChunk (initState [2] [3]) (adSlice none) TAG_FINAL [7])
            none).2) ∧
    (Decryptor.decrypt { state := initState [2] [3], flag_finalized := false }
        (encChunk (initState [2] [3]) (adSlice none) TAG_FINAL [7])
        none).2.is_finalized = true :=
  ⟨by decide,
   (c5_finalize { state := initState [2] [3], flag_finalized := false }
      (encChunk (initState [2] [3]) (adSlice none) TAG_FINAL [7]) none [7]
      _ (by decide)).1⟩

/-- Claim C6: the finalized flag is sticky: if `is_finalized()` is true then
it stays true after `decrypt` (on every result path: panic, error, success)
and after `rekey`; both operations remain callable on the instance. -/
theorem c6_finalized_sticky (d : Decryptor) (c : List Nat)
    (ad : Option (List Nat)) (h : d.is_finalized = true) :
    (Decryptor.decrypt d c ad).2.is_finalized = true ∧
    (Decryptor.rekey d).is_finalized = true := by
  have hflag : d.flag_finalized = true := h
  constructor
  · rw [Decryptor.decrypt]
    split
    · exact h
    · split
      · exact h
      · split
        · simpa [Decryptor.is_finalized] using hflag
        · simp only [Decryptor.is_finalized]
          split
          · rfl
          · exact hflag
  · simpa [Decryptor.rekey, Decryptor.is_finalized] using hflag

/-- Witness for C6 on a concrete finalized decryptor. -/
theorem c6_finalized_sticky_witness :
    Decryptor.is_finalized
        { state := initState [2] [3], flag_finalized := true } = true ∧
    (Decryptor.decrypt { state := initState [2] [3], flag_finalized := true }
        [] none).2.is_finalized = true ∧
    (Decryptor.rekey
        { state := initState [2] [3], flag_finalized := true }).is_finalized
      = true :=
  ⟨rfl,
   (c6_finalized_sticky { state := initState [2] [3], flag_finalized := true }
      [] none rfl).1,
   (c6_finalized_sticky { state := initState [2] [3], flag_finalized := true }
      [] none rfl).2⟩

/-- Counterexample to claim C7 as stated: at the concrete input `c = []`
(any ciphertext shorter than `ABYTES`), `Decryptor::decrypt` neither returns
`Ok` nor returns `Err` — the unguarded `c.len() - ABYTES` makes the call
panic, so the claimed dichotomy over every ciphertext fails. -/
theorem c7_counterexample :
    ¬ (((Decryptor.decrypt (Decryptor.init [3] [2]) [] none).1
          = RResult.err) ∨
       ∃ p t, (Decryptor.decrypt (Decryptor.init [3] [2]) [] none).1
          = RResult.ok (p, t)) := by
  intro h
  have hp : (Decryptor.decrypt (Decryptor.init [3] [2]) [] none).1
      = RResult.panicked := rfl
  rcases h with h | ⟨p, t, h⟩
  · rw [hp] at h
    exact RResult.noConfusion h
  · rw [hp] at h
    exact RResult.noConfusion h

/-- Claim C7 (amended): for every ciphertext of length at least `ABYTES` and
every associated data, `Decryptor::decrypt` fails closed: the result is
either `Ok` with the full plaintext and tag, or `Err` — never a panic, never
partial plaintext (the `Err` constructor carries no data), with every failure
returned explicitly to the caller. -/
theorem c7_fails_closed (d : Decryptor) (c : List Nat)
    (ad : Option (List Nat)) (h : ABYTES ≤ c.length) :
    (∃ p t, (Decryptor.decrypt d c ad).1 = RResult.ok (p, t)) ∨
    (Decryptor.decrypt d c ad).1 = RResult.err := by
  have hnot : ¬ c.length < ABYTES := by omega
  rw [Decryptor.decrypt, if_neg hnot]
  split
  · right
    rfl
  · split
    · right
      rfl
    · left
      exact ⟨_, _, rfl⟩

/-- Witness for C7 (amended) at a concrete 17-byte ciphertext. -/
theorem c7_fails_closed_witness :
    ABYTES ≤ (List.replicate 17 0).length ∧
    ((∃ p t, (Decryptor.decrypt (Decryptor.init [3] [2])
        (List.replicate 17 0) none).1 = RResult.ok (p, t)) ∨
     (Decryptor.decrypt (Decryptor.init [3] [2])
        (List.replicate 17 0) none).1 = RResult.err) :=
  ⟨by decide,
   c7_fails_closed (Decryptor.init [3] [2]) (List.replicate 17 0) none
     (by decide)⟩


/-- Claim C8: implicit and explicit rekey have identical effect on the
State.  Encrypting a Rekey-tagged chunk leaves the Encryptor state equal to
encrypting a Message-tagged chunk with the same plaintext and associated
data followed by the explicit `rekey()`; and decrypting the Rekey chunk
leaves the Decryptor state equal to decrypting the Message chunk followed by
the explicit `rekey()`. -/
theorem c8_rekey_equivalence (s : StreamState) (f : Bool) (m : List Nat)
    (adO : Option (List Nat)) (cR cM : List Nat)
    (hm : ∀ b ∈ m, b < 256)
    (hR : (Encryptor.rekey_message { state := s } m adO).1 = RResult.ok cR)
    (hM : (Encryptor.message { state := s } m adO).1 = RResult.ok cM) :
    ((Encryptor.rekey_message { state := s } m adO).2
        = Encryptor.rekey (Encryptor.message { state := s } m adO).2) ∧
    ((Decryptor.decrypt { state := s, flag_finalized := f } cR adO).2.state
        = (Decryptor.rekey
            (Decryptor.decrypt { state := s, flag_finalized := f }
              cM adO).2).state) := by
  have hR2 : RResult.ok (encChunk s (adSlice adO) TAG_REKEY m)
      = RResult.ok cR := hR
  have hM2 : RResult.ok (encChunk s (adSlice adO) TAG_MESSAGE m)
      = RResult.ok cM := hM
  cases hR2
  cases hM2
  constructor
  · simp [Encryptor.rekey_message, Encryptor.message, Encryptor._push,
      secretstream_push, Encryptor.rekey, postState, TAG_MESSAGE, TAG_REKEY]
  · rw [show TAG_REKEY = tagByteOf Tag.Rekey from rfl,
      show TAG_MESSAGE = tagByteOf Tag.Message from rfl,
      decrypt_encChunk s f m adO Tag.Rekey hm,
      decrypt_encChunk s f m adO Tag.Message hm]
    simp [Decryptor.rekey, postState, tagByteOf, TAG_MESSAGE, TAG_REKEY]

/-- Witness for C8 at a concrete state and one-byte message. -/
theorem c8_rekey_equivalence_witness :
    (∀ b ∈ ([6] : List Nat), b < 256) ∧
    (Encryptor.rekey_message { state := initState [2] [3] } [6] none).1
      = RResult.ok (encChunk (initState [2] [3]) (adSlice none)
          TAG_REKEY [6]) ∧
    (Encryptor.message { state := initState [2] [3] } [6] none).1
      = RResult.ok (encChunk (initState [2] [3]) (adSlice none)
          TAG_MESSAGE [6]) ∧
    ((Encryptor.rekey_message { state := initState [2] [3] } [6] none).2
        = Encryptor.rekey
            (Encryptor.message { state := initState [2] [3] } [6] none).2) ∧
    ((Decryptor.decrypt
        { state := initState [2] [3], flag_finalized := false }
        (encChunk (initState [2] [3]) (adSlice none) TAG_REKEY [6])
        none).2.state
      = (Decryptor.rekey
          (Decryptor.decrypt
            { state := initState [2] [3], flag_finalized := false }
            (encChunk (initState [2] [3]) (adSlice none) TAG_MESSAGE [6])
            none).2).state) :=
  ⟨by decide, rfl, rfl,
   (c8_rekey_equivalence (initState [2] [3]) false [6] none
      (encChunk (initState [2] [3]) (adSlice none) TAG_REKEY [6])
      (encChunk (initState [2] [3]) (adSlice none) TAG_MESSAGE [6])
      (by decide) rfl rfl).1,
   (c8_rekey_equivalence (initState [2] [3]) false [6] none
      (encChunk (initState [2] [3]) (adSlice none) TAG_REKEY [6])
      (encChunk (initState [2] [3]) (adSlice none) TAG_MESSAGE [6])
      (by decide) rfl rfl).2⟩

/-- Claim C9: `ad = None` is behaviourally equivalent to `ad = Some(&[])`:
both map to a zero-length associated-data slice for the primitive
(`ad.map(..).unwrap_or((null, 0))`), so every tag form of encryption and
`Decryptor::decrypt` produce identical results and successor states under
the two inputs. -/
theorem c9_ad_none_empty_equiv (e : Encryptor) (d : Decryptor)
    (m c : List Nat) :
    Encryptor.message e m none = Encryptor.message e m (some []) ∧
    Encryptor.push e m none = Encryptor.push e m (some []) ∧
    Encryptor.rekey_message e m none
      = Encryptor.rekey_message e m (some []) ∧
    Encryptor.finalize e m none = Encryptor.finalize e m (some []) ∧
    Decryptor.decrypt d c none = Decryptor.decrypt d c (some []) :=
  ⟨rfl, rfl, rfl, rfl, rfl⟩

/-- Claim C10: the unknown-tag failure of `Decryptor::decrypt` is not
atomic.  For a chunk that passes AEAD verification but carries an unknown
tag byte, `decrypt` returns `Err` while the Decryptor state has already
advanced by one chunk step (which never equals the previous state); by
contrast, on an AEAD verification failure (primitive pull error) the state
is left exactly as it was. -/
theorem c10_unknown_tag_state_advance (s : StreamState) (f : Bool)
    (adO : Option (List Nat)) (m : List Nat) (b : Nat)
    (hm : ∀ x ∈ m, x < 256) (hb : b < 256)
    (h0 : b ≠ TAG_MESSAGE) (h1 : b ≠ TAG_PUSH) (h2 : b ≠ TAG_REKEY)
    (h3 : b ≠ TAG_FINAL) :
    (Decryptor.decrypt { state := s, flag_finalized := f }
        (encChunk s (adSlice adO) b m) adO
      = (RResult.err, { state := chunkStep s, flag_finalized := f }) ∧
     chunkStep s ≠ s) ∧
    (∀ c, ABYTES ≤ c.length →
      secretstream_pull s c (adSlice adO) = Except.error () →
      Decryptor.decrypt { state := s, flag_finalized := f } c adO
        = (RResult.err, { state := s, flag_finalized := f })) := by
  have htag : _tag_from_byte b = Except.error () := by
    simp [_tag_from_byte, h0, h1, h2, h3]
  refine ⟨⟨?_, ?_⟩, ?_⟩
  · have hlen := encChunk_length s (adSlice adO) b m
    have hnot : ¬ (encChunk s (adSlice adO) b m).length < ABYTES := by omega
    rw [Decryptor.decrypt, if_neg hnot]
    simp only [pull_encChunk s (adSlice adO) b m hb hm, htag]
    simp [postState, h2]
  · intro hstep
    cases s
    simp [chunkStep] at hstep
  · intro c hlen hpull
    have hnot : ¬ c.length < ABYTES := by omega
    rw [Decryptor.decrypt, if_neg hnot, hpull]

/-- Witness for C10 at the unknown tag byte 5 and a concrete state. -/
theorem c10_unknown_tag_state_advance_witness :
    (Decryptor.decrypt { state := initState [2] [3], flag_finalized := false }
        (encChunk (initState [2] [3]) (adSlice none) 5 [8]) none
      = (RResult.err,
         { state := chunkStep (initState [2] [3]),
           flag_finalized := false }) ∧
     chunkStep (initState [2] [3]) ≠ initState [2] [3]) ∧
    (∀ c, ABYTES ≤ c.length →
      secretstream_pull (initState [2] [3]) c (adSlice none)
        = Except.error () →
      Decryptor.decrypt
          { state := initState [2] [3], flag_finalized := false } c none
        = (RResult.err,
           { state := initState [2] [3], flag_finalized := false })) :=
  c10_unknown_tag_state_advance (initState [2] [3]) false none [8] 5
    (by decide) (by decide) (by decide) (by decide) (by decide) (by decide)

end Secretstream

